import Mathlib

/-!
Trinity Dynamics panel — verification of the parameter-selection-and-fetch controller.

Shallow embedding of the panel fragment in
`src/frontend/bridge_dashboard/src/App.js` together with the spec-modelled
controller core (`fetchTrinityViz` — the Parameter Model and Request
Dispatcher — is not present in the source tree; only its call sites are,
so those parts are modelled from the specification, as noted on each
definition).

The source fragment contains:
* a `<select>` with options Stable / Responsive / Balanced / Amplified and
  `defaultValue="Balanced"`, whose `onChange` handler calls
  `fetchTrinityViz(e.target.value)`;
* a numeric `<input>` whose `onBlur` handler calls
  `fetchTrinityViz("Custom", parseFloat(e.target.value))` with no
  validation before the call.
-/

namespace TrinityViz

/-- The enumerated preset names of the data model (§3 of the spec):
Stable, Responsive, Balanced, Amplified, Custom. -/
inductive PresetName where
  | Stable
  | Responsive
  | Balanced
  | Amplified
  | Custom
deriving DecidableEq, Repr

/-- The four options offered by the source's `<select>` element
(`App.js` lines 6–9).  `Custom` is not among them; it is reached only via
the numeric input's blur commit. -/
inductive SelectOption where
  | Stable
  | Responsive
  | Balanced
  | Amplified
deriving DecidableEq, Repr

/-- The preset name carried by each option's `value` attribute. -/
def SelectOption.toPreset : SelectOption → PresetName
  | .Stable => .Stable
  | .Responsive => .Responsive
  | .Balanced => .Balanced
  | .Amplified => .Amplified

/-- An exact finite decimal value `num / 10 ^ exp10`.  Every numeral a
user can type into the panel's decimal input (and every result of
`parseFloat` on it) is of this form; using an explicit power-of-ten
denominator keeps all arithmetic in `ℤ`/`ℕ`.  `toRat` below gives its
value as a rational. -/
structure DecValue where
  num : ℤ
  exp10 : ℕ
deriving DecidableEq, Repr

/-- The rational value denoted by a `DecValue`. -/
def DecValue.toRat (d : DecValue) : ℚ := (d.num : ℚ) / 10 ^ d.exp10

/-- A JavaScript number as produced by `parseFloat`: either NaN or a
finite decimal value. -/
inductive JsNumber where
  | nan
  | val (d : DecValue)
deriving DecidableEq, Repr

/-! ## Model of the JavaScript `parseFloat` builtin

`parseFloat` skips leading whitespace, accepts an optional sign, then the
longest prefix of the form `digits [. digits] [e/E [sign] digits]` (at
least one mantissa digit required), ignoring any trailing characters, and
returns NaN when no such prefix exists. -/

/-- Numeric value of a list of decimal digit characters. -/
def digitsToNat (ds : List Char) : ℕ :=
  ds.foldl (fun n c => 10 * n + (c.toNat - 48)) 0

/-- Parse the mantissa `digits [. digits]` (at least one digit overall);
returns the value and the unconsumed remainder.  The value of
`ip . fp` is `digitsToNat (ip ++ fp) / 10 ^ fp.length`. -/
def parseMantissa (cs : List Char) : Option (DecValue × List Char) :=
  let ip := cs.takeWhile Char.isDigit
  let rest := cs.dropWhile Char.isDigit
  match rest with
  | '.' :: rest2 =>
      let fp := rest2.takeWhile Char.isDigit
      let rest3 := rest2.dropWhile Char.isDigit
      if ip.isEmpty && fp.isEmpty then none
      else some (⟨(digitsToNat (ip ++ fp) : ℤ), fp.length⟩, rest3)
  | _ =>
      if ip.isEmpty then none
      else some (⟨(digitsToNat ip : ℤ), 0⟩, rest)

/-- Parse an optional exponent part `e/E [sign] digits`; `none` when the
remainder does not start with a complete exponent (in which case
`parseFloat` simply stops before the `e`, longest-valid-prefix rule). -/
def parseExpPart (cs : List Char) : Option ℤ :=
  match cs with
  | 'e' :: rest | 'E' :: rest =>
      let signed : Bool × List Char :=
        match rest with
        | '+' :: r => (false, r)
        | '-' :: r => (true, r)
        | r => (false, r)
      let ds := signed.2.takeWhile Char.isDigit
      if ds.isEmpty then none
      else some (if signed.1 then -(digitsToNat ds : ℤ) else (digitsToNat ds : ℤ))
  | _ => none

/-- Apply a decimal exponent to the mantissa value. -/
def applyExp (m : DecValue) (e : ℤ) : DecValue :=
  if 0 ≤ e then ⟨m.num * 10 ^ e.toNat, m.exp10⟩ else ⟨m.num, m.exp10 + (-e).toNat⟩

/-- Negate a decimal value. -/
def DecValue.neg (d : DecValue) : DecValue := ⟨-d.num, d.exp10⟩

/-- Model of JavaScript `parseFloat`: leading whitespace skipped, optional
sign, longest numeric prefix, NaN when no numeric prefix exists. -/
def parseFloat (s : String) : JsNumber :=
  let cs := s.data.dropWhile (fun c => c = ' ' || c = '\t' || c = '\n' || c = '\r')
  let signed : Bool × List Char :=
    match cs with
    | '-' :: r => (true, r)
    | '+' :: r => (false, r)
    | r => (false, r)
  match parseMantissa signed.2 with
  | none => .nan
  | some (m, rest) =>
      let v := applyExp m ((parseExpPart rest).getD 0)
      .val (if signed.1 then v.neg else v)

/-- The valid damping range of the spec, `[0.1, 1.0]` inclusive, decided
by cross-multiplication with the positive denominator `10 ^ exp10`:
`1/10 ≤ num / 10^exp10 ↔ 10^exp10 ≤ 10 * num` and
`num / 10^exp10 ≤ 1 ↔ num ≤ 10^exp10`. -/
def inRange (d : DecValue) : Bool :=
  decide ((10 : ℤ) ^ d.exp10 ≤ 10 * d.num) && decide (d.num ≤ (10 : ℤ) ^ d.exp10)

/-- Range check on a raw JavaScript number; NaN is never in range. -/
def jsInRange : JsNumber → Bool
  | .nan => false
  | .val v => inRange v

/-! ## The source event handlers (from `App.js`)

The handlers are direct, unconditional calls to `fetchTrinityViz`; we
record the exact argument tuple of each call. -/

/-- The raw argument tuple of a `fetchTrinityViz(preset, damping?)` call
as made by the source markup; `damping = none` when the second argument
is not passed at all (the select path). -/
structure FetchArgs where
  preset : PresetName
  damping : Option JsNumber
deriving DecidableEq, Repr

/-- Source `onChange` handler of the select (`App.js` line 5):
`e => fetchTrinityViz(e.target.value)` — one call, the chosen option's
value, no second argument. -/
def onChangeCall (v : SelectOption) : FetchArgs :=
  ⟨v.toPreset, none⟩

/-- Source `onBlur` handler of the numeric input (`App.js` line 14):
`e => fetchTrinityViz("Custom", parseFloat(e.target.value))` — one
unconditional call with preset `"Custom"` and the raw `parseFloat` of the
field text, with no validation before the call. -/
def onBlurCall (text : String) : FetchArgs :=
  ⟨.Custom, some (parseFloat text)⟩

/-- The check `inRange` agrees with the spec's rational range `[0.1, 1.0]` under
`DecValue.toRat`. -/
theorem inRange_iff_toRat (d : DecValue) :
    inRange d = true ↔ (1 : ℚ) / 10 ≤ d.toRat ∧ d.toRat ≤ 1 := by
  have hpow : (0 : ℚ) < 10 ^ d.exp10 := by positivity
  constructor
  · rintro h
    rw [inRange, Bool.and_eq_true, decide_eq_true_eq, decide_eq_true_eq] at h
    obtain ⟨h1, h2⟩ := h
    constructor
    · rw [DecValue.toRat, div_le_div_iff₀ (by norm_num) hpow]
      calc (1 : ℚ) * 10 ^ d.exp10 = ((10 : ℤ) ^ d.exp10 : ℤ) := by push_cast; ring
        _ ≤ ((10 * d.num : ℤ) : ℚ) := by exact_mod_cast h1
        _ = (d.num : ℚ) * 10 := by push_cast; ring
    · rw [DecValue.toRat, div_le_one hpow]
      calc (d.num : ℚ) ≤ (((10 : ℤ) ^ d.exp10 : ℤ) : ℚ) := by exact_mod_cast h2
        _ = 10 ^ d.exp10 := by push_cast; ring
  · rintro ⟨h1, h2⟩
    rw [DecValue.toRat, div_le_div_iff₀ (by norm_num) hpow] at h1
    rw [DecValue.toRat, div_le_one hpow] at h2
    rw [inRange, Bool.and_eq_true, decide_eq_true_eq, decide_eq_true_eq]
    constructor
    · have : ((10 : ℤ) ^ d.exp10 : ℚ) ≤ ((10 * d.num : ℤ) : ℚ) := by push_cast; linarith
      exact_mod_cast this
    · have : ((d.num : ℤ) : ℚ) ≤ (((10 : ℤ) ^ d.exp10 : ℤ) : ℚ) := by push_cast; linarith
      exact_mod_cast this

/-! ## The Parameter Model (spec §4.1)

`fetchTrinityViz` itself is absent from the source tree (only its call
sites appear in the markup), so the Parameter Model and Request
Dispatcher below are modelled from the specification. -/

/-- An immutable parameter snapshot `{PresetName, DampingValue?}` taken
at the moment of dispatch (spec §3). -/
structure Snapshot where
  preset : PresetName
  damping : Option DecValue
deriving DecidableEq, Repr

/-- The Parameter Model's state: the currently selected preset and, for
`Custom`, the committed damping value. -/
structure ParamModel where
  preset : PresetName
  damping : Option DecValue
deriving DecidableEq, Repr

/-- Modelled from the spec: initial Parameter Model state.  The preset
defaults to `Balanced` (source `defaultValue="Balanced"`, spec §3); no
custom damping value is present. -/
def initialModel : ParamModel := ⟨.Balanced, none⟩

/-- Modelled from the spec (§4.1): `selectPreset` sets the preset; if the
name is not `Custom` it clears the damping value; the mutation always
succeeds and triggers exactly one dispatch of the new snapshot. -/
def selectPreset (m : ParamModel) (name : PresetName) : ParamModel × List Snapshot :=
  let m' : ParamModel := ⟨name, if name = .Custom then m.damping else none⟩
  (m', [⟨m'.preset, m'.damping⟩])

/-- Modelled from the spec (§4.1): `setCustomValue` parses the raw text;
on a failed parse or an out-of-range value the model is unchanged and no
dispatch occurs; on success the preset becomes `Custom` with the parsed
damping value, and exactly one dispatch of that snapshot is triggered. -/
def setCustomValue (m : ParamModel) (raw : String) : ParamModel × List Snapshot :=
  match parseFloat raw with
  | .nan => (m, [])
  | .val v =>
      if inRange v then (⟨.Custom, some v⟩, [⟨.Custom, some v⟩])
      else (m, [])

/-- The panel's inbound UI events (spec §6): a change of the select (one
of its four options, from the source markup) or a blur commit of the
custom input's text. -/
inductive UIEvent where
  | selectChange (v : SelectOption)
  | blurCommit (text : String)

/-- One UI event processed by the Parameter Model: the new model state
together with the list of snapshots it dispatches (spec §4.1 side
effect).  The select path goes through `selectPreset`, the blur path
through `setCustomValue`. -/
def uiStep (m : ParamModel) (e : UIEvent) : ParamModel × List Snapshot :=
  match e with
  | .selectChange v => selectPreset m v.toPreset
  | .blurCommit text => setCustomValue m text

/-- The model state after a UI event, discarding the dispatches. -/
def uiStepState (m : ParamModel) (e : UIEvent) : ParamModel := (uiStep m e).1

/-- Parameter Model states reachable from the initial state by UI
events. -/
def ReachableModel (m : ParamModel) : Prop :=
  ∃ es : List UIEvent, List.foldl uiStepState initialModel es = m

/-! ## The Request Dispatcher (spec §4.2), modelled from the spec

The dispatcher owns two counters ("highest dispatched", "highest
rendered") and writes into the Render Sink.  Its behaviour is a state
machine driven by two kinds of events: a user-triggered dispatch and the
completion (success or failure) of the fetch with a given sequence
number.  The single-threaded event-loop model of spec §5 makes a run of
the panel a finite list of such events processed in order. -/

/-- A visualization result (spec §3): an opaque image reference plus a
diagnostic text payload. -/
structure VizResult where
  imageRef : String
  diagnosticText : String
deriving DecidableEq, Repr

/-- Outcome of the underlying fetch: success with a result, or a
transport failure with a message. -/
inductive FetchOutcome where
  | success (r : VizResult)
  | failure (msg : String)
deriving DecidableEq, Repr

/-- A call made on the Render Sink (spec §4.3), tagged with the sequence
number of the request that produced it. -/
inductive SinkCall where
  | showResult (s : ℕ) (r : VizResult)
  | showError (s : ℕ) (msg : String)
deriving DecidableEq, Repr

/-- A dispatcher event: a user-triggered dispatch of a snapshot, or the
completion of the fetch carrying sequence number `s`. -/
inductive Event where
  | userDispatch (snap : Snapshot)
  | complete (s : ℕ) (out : FetchOutcome)
deriving DecidableEq, Repr

/-- The dispatcher's state: the two counters of spec §5 and the log of
Render Sink calls made so far (newest first; the head is what the panel
currently displays). -/
structure DispatcherState where
  highestDispatched : ℕ
  highestRendered : ℕ
  sinkCalls : List SinkCall
deriving DecidableEq, Repr

/-- The dispatcher's initial state: no request dispatched, nothing
rendered, no sink call made. -/
def initState : DispatcherState := ⟨0, 0, []⟩

/-- Modelled from the spec (§4.2): one dispatcher event.  A user
dispatch assigns the next sequence number (recording it as "highest
dispatched"); a completion with sequence number `s` is discarded when
`s` is lower than "highest dispatched" (stale, for failures exactly as
for successes), and otherwise forwarded to the Render Sink —
`showResult` on success (recording `s` as "highest rendered"),
`showError` on failure. -/
def step (σ : DispatcherState) (e : Event) : DispatcherState :=
  match e with
  | .userDispatch _ => { σ with highestDispatched := σ.highestDispatched + 1 }
  | .complete s out =>
      if s < σ.highestDispatched then σ
      else
        match out with
        | .success r =>
            { σ with sinkCalls := .showResult s r :: σ.sinkCalls, highestRendered := s }
        | .failure msg =>
            { σ with sinkCalls := .showError s msg :: σ.sinkCalls }

/-- Run the dispatcher from its initial state over a list of events. -/
def runTrace (t : List Event) : DispatcherState := t.foldl step initState

/-- Dispatcher states reachable by some event trace. -/
def ReachableD (σ : DispatcherState) : Prop := ∃ t : List Event, runTrace t = σ

/-- Whether an event is a user-triggered dispatch. -/
def isDispatch : Event → Bool
  | .userDispatch _ => true
  | .complete _ _ => false

/-- Number of dispatch events in a trace. -/
def dispatchCount (t : List Event) : ℕ := t.countP isDispatch

/-- The sequence number carried by a completion event. -/
def completionSeq : Event → Option ℕ
  | .complete s _ => some s
  | .userDispatch _ => none

/-- The sequence numbers of the completions of a trace, in arrival
order. -/
def completionSeqs (t : List Event) : List ℕ := t.filterMap completionSeq

/-- The sequence numbers assigned to the dispatches of a trace, in
dispatch order, when the counter starts at `n` (spec §4.2 step 1: each
dispatch is assigned the successor of the current counter). -/
def assignedSeqs : List Event → ℕ → List ℕ
  | [], _ => []
  | .userDispatch _ :: t, n => (n + 1) :: assignedSeqs t (n + 1)
  | .complete _ _ :: t, n => assignedSeqs t n

/-- A trace is causal when, at every point, a completion's sequence
number is at most the number of dispatches issued so far: a fetch can
only complete after it was dispatched (spec §5's event-loop model). -/
@[reducible]
def Causal (t : List Event) : Prop :=
  ∀ n ≤ t.length, ∀ s ∈ completionSeqs (t.take n), s ≤ dispatchCount (t.take n)

/-- Whether an event agrees with the result assignment `r`: completions
with sequence number `s` succeed with result `r s` (used to describe
runs in which every fetch resolves successfully). -/
def successFor (r : ℕ → VizResult) (e : Event) : Bool :=
  match e with
  | .complete s out => out = .success (r s)
  | .userDispatch _ => true

/-- Turn the snapshots dispatched by the Parameter Model into dispatcher
events. -/
def eventsOf (ds : List Snapshot) : List Event := ds.map Event.userDispatch

/-! ## Helper lemmas about the dispatcher state machine -/

/-- A completion event never changes the "highest dispatched" counter. -/
theorem step_complete_highest (σ : DispatcherState) (s : ℕ) (out : FetchOutcome) :
    (step σ (.complete s out)).highestDispatched = σ.highestDispatched := by
  unfold step
  by_cases h : s < σ.highestDispatched
  · simp [h]
  · cases out <;> simp [h]

/-- The "highest dispatched" counter after a run equals its initial
value plus the number of dispatch events processed. -/
theorem foldl_highestDispatched (t : List Event) (σ : DispatcherState) :
    (List.foldl step σ t).highestDispatched = σ.highestDispatched + dispatchCount t := by
  induction t generalizing σ with
  | nil => simp [dispatchCount]
  | cons e t ih =>
      cases e with
      | userDispatch snap =>
          rw [List.foldl_cons, ih]
          simp [dispatchCount, List.countP_cons, step, isDispatch]
          omega
      | complete s out =>
          rw [List.foldl_cons, ih, step_complete_highest]
          simp [dispatchCount, List.countP_cons, isDispatch]

/-- A run consisting solely of stale completions (sequence number below
the current "highest dispatched") leaves the dispatcher state
untouched. -/
theorem foldl_stale (t : List Event) (σ : DispatcherState)
    (h : ∀ e ∈ t, ∃ s out, e = Event.complete s out ∧ s < σ.highestDispatched) :
    List.foldl step σ t = σ := by
  induction t with
  | nil => rfl
  | cons e t ih =>
      obtain ⟨s, out, rfl, hs⟩ := h e (List.mem_cons_self e t)
      rw [List.foldl_cons]
      have hstep : step σ (Event.complete s out) = σ := by
        unfold step; simp [hs]
      rw [hstep]
      exact ih (fun e' he' => h e' (List.mem_cons_of_mem _ he'))

/-- The sequence numbers assigned along a trace with the counter
starting at `n` are exactly `n+1, n+2, …, n + dispatchCount t`. -/
theorem assignedSeqs_eq_range' (t : List Event) (n : ℕ) :
    assignedSeqs t n = List.range' (n + 1) (dispatchCount t) := by
  induction t generalizing n with
  | nil => simp [assignedSeqs, dispatchCount]
  | cons e t ih =>
      cases e with
      | userDispatch snap =>
          have hc : dispatchCount (Event.userDispatch snap :: t) = dispatchCount t + 1 := by
            simp [dispatchCount, List.countP_cons, isDispatch]
          rw [hc, assignedSeqs, ih, List.range'_succ]
      | complete s out =>
          have hc : dispatchCount (Event.complete s out :: t) = dispatchCount t := by
            simp [dispatchCount, List.countP_cons, isDispatch]
          rw [hc, assignedSeqs, ih]

/-- Dispatch events alone never touch the Render Sink: only completions
produce sink calls. -/
theorem foldl_eventsOf_sinkCalls (ds : List Snapshot) (σ : DispatcherState) :
    (List.foldl step σ (eventsOf ds)).sinkCalls = σ.sinkCalls := by
  induction ds generalizing σ with
  | nil => rfl
  | cons d ds ih => rw [eventsOf, List.map_cons, List.foldl_cons]; exact ih _

/-! ## The claims -/

/-- C10: for every blur event on the custom-damping input, the source
handler invokes `fetchTrinityViz` unconditionally with preset `Custom`
and the raw `parseFloat` of the field text as the damping argument —
including NaN for empty or non-numeric text and values outside
`[0.1, 1.0]` — with no validation before the call. -/
theorem C10_onBlur_no_validation :
    (∀ text : String, onBlurCall text = ⟨.Custom, some (parseFloat text)⟩) ∧
    parseFloat ("") = .nan ∧
    parseFloat ("abc") = .nan ∧
    onBlurCall ("") = ⟨.Custom, some .nan⟩ ∧
    parseFloat ("5") = .val ⟨5, 0⟩ ∧
    jsInRange (parseFloat ("5")) = false ∧
    onBlurCall ("5") = ⟨.Custom, some (.val ⟨5, 0⟩)⟩ ∧
    parseFloat ("0.05") = .val ⟨5, 2⟩ ∧
    jsInRange (parseFloat ("0.05")) = false ∧
    onBlurCall ("0.05") = ⟨.Custom, some (.val ⟨5, 2⟩)⟩ :=
  ⟨fun _ => rfl, by decide, by decide, by decide, by decide, by decide, by decide,
    by decide, by decide, by decide⟩

/-- C9: the set of selectable named presets is exactly
{Stable, Responsive, Balanced, Amplified, Custom} — the four options of
the select plus `Custom` committed through the numeric input — and the
panel's initial (default) selection is `Balanced`.  Every preset name of
the enumeration can be dispatched by some UI event, from any model
state. -/
theorem C9_presets_and_default :
    initialModel.preset = .Balanced ∧
    (∀ p : PresetName, ∃ e : UIEvent, ∀ m : ParamModel,
      ∃ snap ∈ (uiStep m e).2, snap.preset = p) := by
  refine ⟨rfl, fun p => ?_⟩
  have hparse : parseFloat ("0.5") = .val ⟨5, 1⟩ := by decide
  have hrange : inRange ⟨5, 1⟩ = true := by decide
  cases p with
  | Stable =>
      exact ⟨.selectChange .Stable, fun m => ⟨⟨.Stable, none⟩, by
        simp [uiStep, selectPreset, SelectOption.toPreset]⟩⟩
  | Responsive =>
      exact ⟨.selectChange .Responsive, fun m => ⟨⟨.Responsive, none⟩, by
        simp [uiStep, selectPreset, SelectOption.toPreset]⟩⟩
  | Balanced =>
      exact ⟨.selectChange .Balanced, fun m => ⟨⟨.Balanced, none⟩, by
        simp [uiStep, selectPreset, SelectOption.toPreset]⟩⟩
  | Amplified =>
      exact ⟨.selectChange .Amplified, fun m => ⟨⟨.Amplified, none⟩, by
        simp [uiStep, selectPreset, SelectOption.toPreset]⟩⟩
  | Custom =>
      refine ⟨.blurCommit ("0.5"), fun m => ⟨⟨.Custom, some ⟨5, 1⟩⟩, ?_⟩⟩
      simp [uiStep, setCustomValue, hparse, hrange]

/-- C3: `setCustomValue` (the blur commit of the custom damping input)
dispatches a request exactly when the raw text parses to a number in
`[0.1, 1.0]` (one dispatch then, zero otherwise); dispatching itself
never produces a `showResult` or `showError` call on the Render Sink, so
an ignored input produces no sink call at all; in particular the
out-of-range input `"0.05"` of spec scenario B dispatches nothing. -/
theorem C3_custom_commit_validation (m : ParamModel) (text : String) :
    ((setCustomValue m text).2.length = if jsInRange (parseFloat text) then 1 else 0) ∧
    (∀ σ : DispatcherState,
      (List.foldl step σ (eventsOf (setCustomValue m text).2)).sinkCalls = σ.sinkCalls) ∧
    (setCustomValue m ("0.05")).2 = [] := by
  refine ⟨?_, fun σ => foldl_eventsOf_sinkCalls _ σ, ?_⟩
  · cases hp : parseFloat text with
    | nan => simp [setCustomValue, hp, jsInRange]
    | val v =>
        cases hr : inRange v with
        | false => simp [setCustomValue, hp, hr, jsInRange]
        | true => simp [setCustomValue, hp, hr, jsInRange]
  · have hp : parseFloat ("0.05") = .val ⟨5, 2⟩ := by decide
    have hr : inRange ⟨5, 2⟩ = false := by decide
    simp [setCustomValue, hp, hr]

/-- C1: on arrival of a `VisualizationResult` with sequence number `s`,
the dispatcher discards it unchanged (no sink write, no state change)
whenever `s` is lower than "highest dispatched"; a successful result is
written to the Render Sink exactly when `s` equals "highest dispatched"
(for causal traces `s` never exceeds it); any sink call present after
the arrival is either an old one or was written with
`s` = "highest dispatched". -/
theorem C1_stale_results_discarded (σ : DispatcherState) (s : ℕ) (out : FetchOutcome)
    (r : VizResult) :
    (s < σ.highestDispatched → step σ (.complete s out) = σ) ∧
    (s = σ.highestDispatched →
      (step σ (.complete s (.success r))).sinkCalls = .showResult s r :: σ.sinkCalls) ∧
    (∀ c ∈ (step σ (.complete s out)).sinkCalls, c ∈ σ.sinkCalls ∨ ¬s < σ.highestDispatched) := by
  refine ⟨fun h => by unfold step; simp [h], fun h => ?_, fun c hc => ?_⟩
  · unfold step; simp [h]
  · by_cases h : s < σ.highestDispatched
    · unfold step at hc; simp [h] at hc; exact Or.inl hc
    · exact Or.inr h

/-- Witness for C1 at a concrete state: with "highest dispatched" = 2, a
stale completion with sequence number 1 is discarded unchanged, and a
fresh successful completion with sequence number 2 is written to the
sink. -/
theorem C1_stale_results_discarded_witness :
    step ⟨2, 0, []⟩ (.complete 1 (.success ⟨("i"), ("d")⟩)) = ⟨2, 0, []⟩ ∧
    (step ⟨2, 0, []⟩ (.complete 2 (.success ⟨("i"), ("d")⟩))).sinkCalls
      = [.showResult 2 ⟨("i"), ("d")⟩] :=
  ⟨(C1_stale_results_discarded ⟨2, 0, []⟩ 1 (.success ⟨("i"), ("d")⟩) ⟨("i"), ("d")⟩).1
      (by decide),
    (C1_stale_results_discarded ⟨2, 0, []⟩ 2 (.success ⟨("i"), ("d")⟩) ⟨("i"), ("d")⟩).2.1
      (by decide)⟩

/-- C6: a transport failure of the fetch with sequence number `s` is
discarded exactly like a stale success when a newer request has been
dispatched (`s` below "highest dispatched"); otherwise (no newer
dispatch) `showError` is called on the Render Sink with the failure
message. -/
theorem C6_failure_reporting (σ : DispatcherState) (s : ℕ) (msg : String) :
    (s < σ.highestDispatched → step σ (.complete s (.failure msg)) = σ) ∧
    (σ.highestDispatched ≤ s →
      (step σ (.complete s (.failure msg))).sinkCalls = .showError s msg :: σ.sinkCalls) := by
  constructor
  · intro h; unfold step; simp [h]
  · intro h; unfold step; simp [Nat.not_lt.mpr h]

/-- Witness for C6, spec scenario D: `dispatch(seq=1)` fails with a
transport error and no newer dispatch is pending, so `showError` is
called; and a stale failure (seq 1 while "highest dispatched" is 2) is
discarded. -/
theorem C6_failure_reporting_witness :
    (step ⟨1, 0, []⟩ (.complete 1 (.failure ("network error")))).sinkCalls
      = [.showError 1 ("network error")] ∧
    step ⟨2, 0, []⟩ (.complete 1 (.failure ("network error"))) = ⟨2, 0, []⟩ :=
  ⟨(C6_failure_reporting ⟨1, 0, []⟩ 1 ("network error")).2 (by decide),
    (C6_failure_reporting ⟨2, 0, []⟩ 1 ("network error")).1 (by decide)⟩

/-- Splitting a trace splits the assigned sequence numbers, the second
part continuing from the counter value reached by the first. -/
theorem assignedSeqs_append (t u : List Event) (n : ℕ) :
    assignedSeqs (t ++ u) n = assignedSeqs t n ++ assignedSeqs u (n + dispatchCount t) := by
  induction t generalizing n with
  | nil => simp [assignedSeqs, dispatchCount]
  | cons e t ih =>
      cases e with
      | userDispatch snap =>
          have hc : dispatchCount (Event.userDispatch snap :: t) = dispatchCount t + 1 := by
            simp [dispatchCount, List.countP_cons, isDispatch]
          rw [hc, List.cons_append, assignedSeqs, assignedSeqs, ih]
          have : n + 1 + dispatchCount t = n + (dispatchCount t + 1) := by omega
          rw [this, List.cons_append]
      | complete s out =>
          have hc : dispatchCount (Event.complete s out :: t) = dispatchCount t := by
            simp [dispatchCount, List.countP_cons, isDispatch]
          rw [hc, List.cons_append, assignedSeqs, assignedSeqs, ih]

/-- C5: one sequence counter for the panel's lifetime — over any run,
the sequence numbers assigned to the dispatches are exactly
`1, 2, …, N` in dispatch order: the first dispatch receives 1, they are
strictly increasing (hence pairwise distinct, a total order on
dispatches), and each one is the successor of the previous. -/
theorem C5_sequence_counter (t : List Event) :
    assignedSeqs t 0 = List.range' 1 (dispatchCount t) ∧
    (assignedSeqs t 0).Pairwise (· < ·) ∧
    (0 < dispatchCount t → (assignedSeqs t 0).head? = some 1) := by
  have h : assignedSeqs t 0 = List.range' 1 (dispatchCount t) := by
    have := assignedSeqs_eq_range' t 0
    rwa [Nat.zero_add] at this
  refine ⟨h, ?_, ?_⟩
  · rw [h]; exact List.pairwise_lt_range' 1 (dispatchCount t)
  · intro hpos
    rw [h]
    cases hdc : dispatchCount t with
    | zero => omega
    | succ k => rw [List.range'_succ]; rfl

/-- Witness for C5 on a concrete run of two dispatches with a completion
in between: the assigned sequence numbers are `[1, 2]`, starting at 1. -/
theorem C5_sequence_counter_witness :
    0 < dispatchCount [Event.userDispatch ⟨.Balanced, none⟩,
      Event.complete 1 (.success ⟨("i"), ("d")⟩), Event.userDispatch ⟨.Stable, none⟩] ∧
    assignedSeqs [Event.userDispatch ⟨.Balanced, none⟩,
      Event.complete 1 (.success ⟨("i"), ("d")⟩), Event.userDispatch ⟨.Stable, none⟩] 0
      = [1, 2] ∧
    (assignedSeqs [Event.userDispatch ⟨.Balanced, none⟩,
      Event.complete 1 (.success ⟨("i"), ("d")⟩), Event.userDispatch ⟨.Stable, none⟩] 0).head?
      = some 1 := by
  refine ⟨by decide, ?_,
    (C5_sequence_counter [Event.userDispatch ⟨.Balanced, none⟩,
      Event.complete 1 (.success ⟨("i"), ("d")⟩),
      Event.userDispatch ⟨.Stable, none⟩]).2.2 (by decide)⟩
  rw [(C5_sequence_counter [Event.userDispatch ⟨.Balanced, none⟩,
    Event.complete 1 (.success ⟨("i"), ("d")⟩), Event.userDispatch ⟨.Stable, none⟩]).1]
  decide

/-- C7: every select-change event — including re-selecting the preset
that is already active, since the handler never compares against the
current selection — triggers exactly one dispatch, and that dispatch is
assigned a fresh sequence number strictly greater than every previously
assigned one. -/
theorem C7_reselect_dispatches_fresh (m : ParamModel) (v : SelectOption) (t : List Event) :
    (uiStep m (.selectChange v)).2.length = 1 ∧
    assignedSeqs (t ++ eventsOf (uiStep m (.selectChange v)).2) 0
      = assignedSeqs t 0 ++ [dispatchCount t + 1] ∧
    (∀ s ∈ assignedSeqs t 0, s < dispatchCount t + 1) := by
  refine ⟨by simp [uiStep, selectPreset], ?_, ?_⟩
  · have h2 : (uiStep m (.selectChange v)).2 = [⟨v.toPreset, none⟩] := by
      cases v <;> simp [uiStep, selectPreset, SelectOption.toPreset]
    rw [h2, eventsOf, List.map_singleton, assignedSeqs_append]
    simp [assignedSeqs]
  · intro s hs
    have h : assignedSeqs t 0 = List.range' 1 (dispatchCount t) := by
      have := assignedSeqs_eq_range' t 0
      rwa [Nat.zero_add] at this
    rw [h] at hs
    have := List.mem_range'_1.mp hs
    omega

/-- Witness for C7: from the initial model, re-selecting the already
active default preset `Balanced` after one earlier dispatch still
triggers exactly one dispatch, and it receives the fresh sequence
number 2. -/
theorem C7_reselect_dispatches_fresh_witness :
    (uiStep initialModel (.selectChange .Balanced)).2.length = 1 ∧
    assignedSeqs ([Event.userDispatch ⟨.Balanced, none⟩]
      ++ eventsOf (uiStep initialModel (.selectChange .Balanced)).2) 0 = [1, 2] := by
  refine ⟨(C7_reselect_dispatches_fresh initialModel .Balanced []).1, ?_⟩
  rw [(C7_reselect_dispatches_fresh initialModel .Balanced
    [Event.userDispatch ⟨.Balanced, none⟩]).2.1]
  decide

/-- C8: no error state is terminal — from every reachable dispatcher
state (errored ones included) a user-triggered dispatch is accepted: it
yields a reachable successor whose "highest dispatched" counter is
incremented, and the dispatch itself disturbs no displayed content. -/
theorem C8_no_terminal_state (σ : DispatcherState) (h : ReachableD σ) (snap : Snapshot) :
    ReachableD (step σ (.userDispatch snap)) ∧
    (step σ (.userDispatch snap)).highestDispatched = σ.highestDispatched + 1 ∧
    (step σ (.userDispatch snap)).sinkCalls = σ.sinkCalls := by
  obtain ⟨t, rfl⟩ := h
  refine ⟨⟨t ++ [.userDispatch snap], ?_⟩, rfl, rfl⟩
  rw [runTrace, runTrace, List.foldl_append]
  rfl

/-- Witness for C8 at a concrete errored state (a transport failure was
just reported): a new dispatch is still accepted and advances the
counter to 2. -/
theorem C8_no_terminal_state_witness :
    ReachableD ⟨1, 0, [.showError 1 ("network error")]⟩ ∧
    (step ⟨1, 0, [.showError 1 ("network error")]⟩
      (.userDispatch ⟨.Stable, none⟩)).highestDispatched = 2 := by
  have hre : ReachableD (⟨1, 0, [.showError 1 ("network error")]⟩ : DispatcherState) :=
    ⟨[.userDispatch ⟨.Balanced, none⟩, .complete 1 (.failure ("network error"))], by decide⟩
  exact ⟨hre, (C8_no_terminal_state _ hre ⟨.Stable, none⟩).2.1⟩

/-- The data-model invariant of spec §3 on a preset / damping pair:
the damping value is present iff the preset is `Custom`, and when
present its rational value lies within `[0.1, 1.0]`. -/
def DampingInv (p : PresetName) (d : Option DecValue) : Prop :=
  (d.isSome = true ↔ p = .Custom) ∧
  ∀ v, d = some v → ((1 : ℚ) / 10 ≤ v.toRat ∧ v.toRat ≤ 1)

/-- No option of the source's select carries the preset `Custom`. -/
theorem toPreset_ne_Custom (v : SelectOption) : v.toPreset ≠ .Custom := by
  cases v <;> simp [SelectOption.toPreset]

/-- Every snapshot dispatched on a UI event satisfies the damping
invariant, whatever the current model state. -/
theorem uiStep_snapshots_inv (m : ParamModel) (e : UIEvent) :
    ∀ snap ∈ (uiStep m e).2, DampingInv snap.preset snap.damping := by
  intro snap hsnap
  cases e with
  | selectChange v =>
      have h2 : (uiStep m (.selectChange v)).2 = [⟨v.toPreset, none⟩] := by
        cases v <;> simp [uiStep, selectPreset, SelectOption.toPreset]
      rw [h2, List.mem_singleton] at hsnap
      subst hsnap
      exact ⟨by simpa using toPreset_ne_Custom v, by simp⟩
  | blurCommit text =>
      cases hp : parseFloat text with
      | nan => simp [uiStep, setCustomValue, hp] at hsnap
      | val v =>
          cases hr : inRange v with
          | false => simp [uiStep, setCustomValue, hp, hr] at hsnap
          | true =>
              simp [uiStep, setCustomValue, hp, hr] at hsnap
              subst hsnap
              refine ⟨by simp, fun w hw => ?_⟩
              simp at hw
              subst hw
              exact (inRange_iff_toRat v).mp hr

/-- One UI event preserves the damping invariant of the model state. -/
theorem uiStepState_preserves_inv (m : ParamModel) (e : UIEvent)
    (h : DampingInv m.preset m.damping) :
    DampingInv (uiStepState m e).preset (uiStepState m e).damping := by
  cases e with
  | selectChange v =>
      have h1 : uiStepState m (.selectChange v) = ⟨v.toPreset, none⟩ := by
        cases v <;> simp [uiStepState, uiStep, selectPreset, SelectOption.toPreset]
      rw [h1]
      exact ⟨by simpa using toPreset_ne_Custom v, by simp⟩
  | blurCommit text =>
      cases hp : parseFloat text with
      | nan => simpa [uiStepState, uiStep, setCustomValue, hp] using h
      | val v =>
          cases hr : inRange v with
          | false => simpa [uiStepState, uiStep, setCustomValue, hp, hr] using h
          | true =>
              have h1 : uiStepState m (.blurCommit text) = ⟨.Custom, some v⟩ := by
                simp [uiStepState, uiStep, setCustomValue, hp, hr]
              rw [h1]
              refine ⟨by simp, fun w hw => ?_⟩
              simp at hw
              subst hw
              exact (inRange_iff_toRat v).mp hr

/-- The damping invariant holds in every reachable model state. -/
theorem reachable_model_inv (m : ParamModel) (h : ReachableModel m) :
    DampingInv m.preset m.damping := by
  obtain ⟨es, rfl⟩ := h
  have : ∀ (es : List UIEvent) (m0 : ParamModel), DampingInv m0.preset m0.damping →
      DampingInv (List.foldl uiStepState m0 es).preset
        (List.foldl uiStepState m0 es).damping := by
    intro es
    induction es with
    | nil => exact fun m0 h0 => h0
    | cons e es ih =>
        intro m0 h0
        rw [List.foldl_cons]
        exact ih _ (uiStepState_preserves_inv m0 e h0)
  exact this es initialModel ⟨by simp [initialModel], by simp [initialModel]⟩

/-- C4: in every reachable Parameter Model state and in every dispatched
snapshot, the damping value is present iff the preset is `Custom` and,
when present, lies within `[0.1, 1.0]`; selecting any preset other than
`Custom` clears the damping value. -/
theorem C4_damping_invariant (m : ParamModel) (h : ReachableModel m) :
    DampingInv m.preset m.damping ∧
    (∀ e : UIEvent, ∀ snap ∈ (uiStep m e).2, DampingInv snap.preset snap.damping) ∧
    (∀ p : PresetName, p ≠ .Custom → ((selectPreset m p).1).damping = none) := by
  refine ⟨reachable_model_inv m h, fun e => uiStep_snapshots_inv m e, fun p hp => ?_⟩
  simp [selectPreset, hp]

/-- Witness for C4 at the reachable state committed by blurring `"0.5"`:
the model holds preset `Custom` with a present damping value, satisfies
the invariant, and selecting `Stable` clears the damping value. -/
theorem C4_damping_invariant_witness :
    ReachableModel ⟨.Custom, some ⟨5, 1⟩⟩ ∧
    DampingInv PresetName.Custom (some ⟨5, 1⟩) ∧
    ((selectPreset ⟨.Custom, some ⟨5, 1⟩⟩ .Stable).1).damping = none := by
  have hre : ReachableModel ⟨.Custom, some ⟨5, 1⟩⟩ :=
    ⟨[.blurCommit ("0.5")], by decide⟩
  obtain ⟨hinv, _, hsel⟩ := C4_damping_invariant _ hre
  exact ⟨hre, hinv, hsel .Stable (by decide)⟩

/-- C2: last dispatch wins.  Consider any run containing `N ≥ 1`
dispatches (assigned sequence numbers `1 … N` by C5) in which every
fetch completes successfully — the completion with sequence number `s`
carrying result `r s` — arriving in an arbitrary order (each exactly
once, a completion never preceding its dispatch).  After all completions
the panel displays exactly the result of the dispatch with the highest
sequence number `N`, independent of the arrival permutation. -/
theorem C2_last_dispatch_wins (t : List Event) (N : ℕ) (r : ℕ → VizResult)
    (hN : 0 < N)
    (hdc : dispatchCount t = N)
    (hcausal : Causal t)
    (hsucc : ∀ e ∈ t, successFor r e = true)
    (hnodup : (completionSeqs t).Nodup)
    (hlen : (completionSeqs t).length = N)
    (hbounds : ∀ s ∈ completionSeqs t, 1 ≤ s ∧ s ≤ N) :
    (runTrace t).sinkCalls.head? = some (.showResult N (r N)) := by
  -- The completion sequence numbers are a permutation of 1 … N.
  have hsub : completionSeqs t ⊆ List.range' 1 N := by
    intro s hs
    exact List.mem_range'_1.mpr (by have := hbounds s hs; omega)
  have hperm : List.Perm (completionSeqs t) (List.range' 1 N) := by
    refine List.Subperm.perm_of_length_le (List.subperm_of_subset hnodup hsub) ?_
    simp [hlen]
  -- In particular the completion of the last dispatch N occurs in t.
  have hmemN : N ∈ completionSeqs t :=
    hperm.mem_iff.mpr (List.mem_range'_1.mpr (by omega))
  obtain ⟨e, het, hseq⟩ := List.mem_filterMap.mp hmemN
  obtain ⟨out, rfl⟩ : ∃ out, e = Event.complete N out := by
    cases e with
    | userDispatch snap => simp [completionSeq] at hseq
    | complete s out =>
        simp [completionSeq] at hseq
        exact ⟨out, by rw [hseq]⟩
  have hout : out = .success (r N) := by
    have := hsucc _ het
    simpa [successFor] using this
  subst hout
  -- Split the trace at that completion.
  obtain ⟨t₁, t₂, rfl⟩ := List.append_of_mem het
  -- All N dispatches lie before it, so no dispatch lies after it.
  have hsplit : completionSeqs (t₁ ++ Event.complete N (.success (r N)) :: t₂)
      = completionSeqs t₁ ++ N :: completionSeqs t₂ := by
    rw [completionSeqs, List.filterMap_append]
    simp [completionSeqs, completionSeq]
  have hdc_split : dispatchCount (t₁ ++ Event.complete N (.success (r N)) :: t₂)
      = dispatchCount t₁ + dispatchCount t₂ := by
    rw [dispatchCount, List.countP_append, List.countP_cons]
    simp [dispatchCount, isDispatch]
  have hdc₁ : dispatchCount t₁ = N := by
    have htake : (t₁ ++ Event.complete N (.success (r N)) :: t₂).take (t₁.length + 1)
        = t₁ ++ [Event.complete N (.success (r N))] := by
      rw [show t₁ ++ Event.complete N (.success (r N)) :: t₂
          = (t₁ ++ [Event.complete N (.success (r N))]) ++ t₂ by simp]
      exact List.take_left' (by simp)
    have hle : t₁.length + 1 ≤ (t₁ ++ Event.complete N (.success (r N)) :: t₂).length := by
      simp
    have hc := hcausal (t₁.length + 1) hle N ?hm
    case hm =>
      rw [htake, completionSeqs, List.filterMap_append]
      simp [completionSeq]
    rw [htake] at hc
    have hdcN : dispatchCount (t₁ ++ [Event.complete N (.success (r N))])
        = dispatchCount t₁ := by
      rw [dispatchCount, List.countP_append]
      simp [dispatchCount, isDispatch]
    rw [hdcN] at hc
    have hup : dispatchCount t₁ ≤ N := by
      rw [hdc_split] at hdc; omega
    omega
  have hdc₂ : dispatchCount t₂ = 0 := by
    rw [hdc_split, hdc₁] at hdc; omega
  -- The state reached just before the completion of N.
  set σ₁ := List.foldl step initState t₁ with hσ₁
  have hhd₁ : σ₁.highestDispatched = N := by
    rw [hσ₁, foldl_highestDispatched, hdc₁]
    simp [initState]
  -- The completion of N is fresh and is written to the sink.
  have hstep : step σ₁ (Event.complete N (.success (r N)))
      = { σ₁ with sinkCalls := .showResult N (r N) :: σ₁.sinkCalls, highestRendered := N } := by
    unfold step
    simp [hhd₁]
  -- Everything after it is a stale completion and changes nothing.
  have hfinal : List.foldl step (step σ₁ (Event.complete N (.success (r N)))) t₂
      = step σ₁ (Event.complete N (.success (r N))) := by
    apply foldl_stale
    intro e' he'
    have hnd : isDispatch e' = false := by
      have := List.countP_eq_zero.mp hdc₂ e' he'
      simpa using this
    cases e' with
    | userDispatch snap => simp [isDispatch] at hnd
    | complete s' out' =>
        refine ⟨s', out', rfl, ?_⟩
        have hs'mem : s' ∈ completionSeqs (t₁ ++ Event.complete N (.success (r N)) :: t₂) := by
          rw [hsplit]
          refine List.mem_append.mpr (Or.inr ?_)
          refine List.mem_cons_of_mem _ ?_
          exact List.mem_filterMap.mpr ⟨_, he', rfl⟩
        have hs'le : s' ≤ N := (hbounds s' hs'mem).2
        have hs'ne : s' ≠ N := by
          rw [hsplit] at hnodup
          have hnotin : N ∉ completionSeqs t₂ :=
            fun hmem => (List.nodup_append.mp hnodup).2.1.not_mem
              (List.mem_filterMap.mpr (by
                obtain ⟨e'', he'', hs''⟩ := List.mem_filterMap.mp hmem
                exact ⟨e'', he'', hs''⟩))
          intro hEq
          subst hEq
          exact hnotin (List.mem_filterMap.mpr ⟨_, he', rfl⟩)
        have : (step σ₁ (Event.complete N (.success (r N)))).highestDispatched = N := by
          rw [step_complete_highest, hhd₁]
        omega
  rw [runTrace, List.foldl_append, List.foldl_cons, ← hσ₁, hfinal, hstep]
  rfl

/-- Witness for C2, spec scenario C: dispatch 1 (Custom 0.5) then
dispatch 2 (Amplified); the result of seq 2 arrives first and the stale
result of seq 1 arrives last; the panel finally displays exactly the
result of dispatch 2. -/
theorem C2_last_dispatch_wins_witness :
    Causal [Event.userDispatch ⟨.Custom, some ⟨5, 1⟩⟩, Event.userDispatch ⟨.Amplified, none⟩,
      Event.complete 2 (.success ⟨("i2"), ("d2")⟩),
      Event.complete 1 (.success ⟨("i1"), ("d1")⟩)] ∧
    (runTrace [Event.userDispatch ⟨.Custom, some ⟨5, 1⟩⟩,
      Event.userDispatch ⟨.Amplified, none⟩,
      Event.complete 2 (.success ⟨("i2"), ("d2")⟩),
      Event.complete 1 (.success ⟨("i1"), ("d1")⟩)]).sinkCalls.head?
      = some (.showResult 2 ⟨("i2"), ("d2")⟩) := by
  refine ⟨by decide, ?_⟩
  have h := C2_last_dispatch_wins
    [Event.userDispatch ⟨.Custom, some ⟨5, 1⟩⟩, Event.userDispatch ⟨.Amplified, none⟩,
      Event.complete 2 (.success ⟨("i2"), ("d2")⟩),
      Event.complete 1 (.success ⟨("i1"), ("d1")⟩)]
    2 (fun s => if s = 2 then ⟨("i2"), ("d2")⟩ else ⟨("i1"), ("d1")⟩)
    (by decide) (by decide) (by decide) (by decide) (by decide) (by decide) (by decide)
  simpa using h

end TrinityViz
